import Mathlib

/-!
Verification of the tlb-rebranding-web core: the SQLite-backed job queue
(`queue_db.py`), the page-composition engine (`rebrand_folder_app.py`)
and the worker orchestration (`worker.py`), shallowly embedded in Lean.

Timestamps are modelled as natural numbers (seconds).  SQLite's
`updated_at < datetime('now', '-k minutes')` becomes
`updatedAt + k * 60 < now`.  PDF pages are modelled as tagged values that
record which source document and page index they came from and whether the
header overlay has been merged onto them; `merge_page` mutates a page
object in place, which the merge model tracks by computing each page
object's final state before the writer emits it.
-/

namespace QueueDB

/-- Job status values stored in the `status` column of the `jobs` table. -/
inductive Status where
  | pending
  | processing
  | completed
  | failed
deriving DecidableEq, Repr

/-- One row of the `jobs` table (`queue_db.py`, `init_db`). -/
structure JobRow where
  id : Nat
  uid : Nat
  jobType : String
  payload : String
  status : Status
  retryCount : Nat
  error : Option String
  createdAt : Nat
  updatedAt : Nat
deriving DecidableEq, Repr

/-- The re-claim delay of `get_next_job`: `'-2 minutes'` in seconds. -/
def RECLAIM_DELAY_SECS : Nat := 120

/-- The WHERE clause of `get_next_job`'s SELECT: status `'pending'` and
`(retry_count = 0 OR updated_at < datetime('now', '-2 minutes'))`. -/
def eligible (now : Nat) (r : JobRow) : Bool :=
  r.status == .pending &&
    (r.retryCount == 0 || r.updatedAt + RECLAIM_DELAY_SECS < now)

/-- `ORDER BY created_at ASC LIMIT 1`: the first row, scanning in table
order, whose `created_at` is minimal (earlier rows win ties). -/
def pickOldest : List JobRow → Option JobRow
  | [] => none
  | r :: rs =>
      match pickOldest rs with
      | none => some r
      | some m => if r.createdAt ≤ m.createdAt then some r else some m

/-- The UPDATE run by `get_next_job` on the selected row:
`SET status = 'processing', updated_at = CURRENT_TIMESTAMP`. -/
def claimUpdate (now : Nat) (r : JobRow) : JobRow :=
  { r with status := .processing, updatedAt := now }

/-- `get_next_job` (`queue_db.py` lines 80–135): inside one
`BEGIN IMMEDIATE` transaction, select the oldest-created eligible pending
row, mark it `processing` with a refreshed `updated_at`, and return it;
return `none` (leaving the table unchanged) when no eligible row exists.
The returned pair is (selected row as read, table after the UPDATE). -/
def get_next_job (db : List JobRow) (now : Nat) :
    Option JobRow × List JobRow :=
  match pickOldest (db.filter (eligible now)) with
  | none => (none, db)
  | some r =>
      (some r, db.map (fun x => if x.id = r.id then claimUpdate now x else x))

/-- `MAX_RETRIES` in `fail_job`. -/
def MAX_RETRIES : Nat := 3

/-- The per-row effect of `fail_job`: increment `retry_count`; if the new
count exceeds `MAX_RETRIES` the status becomes `'failed'`, otherwise
`'pending'`; record the error and refresh `updated_at`. -/
def failUpdate (now : Nat) (msg : String) (r : JobRow) : JobRow :=
  let newRetries := r.retryCount + 1
  { r with
      retryCount := newRetries,
      status := if MAX_RETRIES < newRetries then .failed else .pending,
      error := some msg,
      updatedAt := now }

/-- `fail_job` (`queue_db.py` lines 156–202): apply `failUpdate` to the row
whose `id` matches (ids are unique, being the AUTOINCREMENT primary key). -/
def fail_job (db : List JobRow) (jobId : Nat) (msg : String) (now : Nat) :
    List JobRow :=
  db.map (fun r => if r.id = jobId then failUpdate now msg r else r)

/-- The WHERE clause of `reset_stuck_jobs`: status `'processing'` and
`updated_at < datetime('now', '-timeout_minutes minutes')`. -/
def stuck (now timeoutMinutes : Nat) (r : JobRow) : Bool :=
  r.status == .processing && r.updatedAt + timeoutMinutes * 60 < now

/-- The per-row effect of `reset_stuck_jobs`'s UPDATE:
`SET status = 'pending', error = 'Reset from stuck state',
updated_at = CURRENT_TIMESTAMP`. -/
def resetUpdate (now : Nat) (r : JobRow) : JobRow :=
  { r with
      status := .pending,
      error := some "Reset from stuck state",
      updatedAt := now }

/-- `reset_stuck_jobs` (`queue_db.py` lines 204–230), with the default
timeout of 10 minutes: reset every stuck `processing` row to `pending`. -/
def reset_stuck_jobs (db : List JobRow) (now : Nat)
    (timeoutMinutes : Nat := 10) : List JobRow :=
  db.map (fun r => if stuck now timeoutMinutes r then resetUpdate now r else r)

end QueueDB

namespace Rebrand

/-- One page of a produced PDF.  `cover` is the full-bleed branding page;
`src d i h` is page `i` of source document `d`, with `h = true` exactly
when the header overlay has been merged onto the page object
(`page.merge_page(header_overlay)` composites onto the page in place, the
original content is kept underneath). -/
inductive OutPage where
  | cover
  | src (doc : Nat) (idx : Nat) (header : Bool)
deriving DecidableEq, Repr

/-- An untouched source document with `n` pages (document identifier `d`):
what `shutil.copy` of the source to the output path produces. -/
def mkSrcDoc (d n : Nat) : List OutPage :=
  (List.range n).map (fun i => .src d i false)

/-- The `header_style` option: `'none'`, `'white'` or `'branded'`. -/
inductive HeaderStyle where
  | noStyle
  | white
  | branded
deriving DecidableEq, Repr

/-- Whether a header overlay object exists: `header_overlay` stays `None`
for style `'none'`; for `'white'` and `'branded'`,
`create_header_overlay` produced a page unless it failed internally
(`creationOk` models its success). -/
def headerOverlayPresent (style : HeaderStyle) (creationOk : Bool) : Bool :=
  match style with
  | .noStyle => false
  | .white => creationOk
  | .branded => creationOk

/-- `start_page_index` in `apply_branding_to_pdf`: 1 if `remove_first_page`
and the PDF has more than one page, else 0. -/
def startPageIndex (removeFirstPage : Bool) (totalPages : Nat) : Nat :=
  if removeFirstPage && decide (1 < totalPages) then 1 else 0

/-- The page window `[start_page_index, total_pages)` iterated by
`apply_branding_to_pdf`'s page loop. -/
def pageWindow (removeFirstPage : Bool) (totalPages : Nat) : List Nat :=
  List.range' (startPageIndex removeFirstPage totalPages)
    (totalPages - startPageIndex removeFirstPage totalPages)

/-- `apply_branding_to_pdf` (`rebrand_folder_app.py` lines 139–201),
page-structure part.  Returns `none` when the source has no pages (the
function returns `False`); otherwise the written document: optional cover
(present when `add_cover` and `create_cover_page` succeeded, modelled by
`coverOk`), then every window page, the header overlay merged onto each
window page except the source's last page. -/
def apply_branding_to_pdf (totalPages : Nat) (headerStyle : HeaderStyle)
    (addCover : Bool) (removeFirstPage : Bool) (coverOk creationOk : Bool) :
    Option (List OutPage) :=
  if totalPages = 0 then none
  else
    let overlay := headerOverlayPresent headerStyle creationOk
    let coverPart : List OutPage :=
      if addCover && coverOk then [.cover] else []
    some (coverPart ++ (pageWindow removeFirstPage totalPages).map
      (fun i => .src 0 i (decide (i < totalPages - 1) && overlay)))

/-- `output_filename` in `apply_branding_to_pdf`:
`f"{p_name} - {t_name}.pdf"` when renaming, else the source basename. -/
def output_filename (rename : Bool) (pName tName basename : String) :
    String :=
  if rename then pName ++ " - " ++ tName ++ ".pdf" else basename

/-- `output_filename` of a merged group in `merge_patient_reports`:
`f"{p_name} - {combined_test}.pdf"` with
`combined_test = " + ".join(test_names)`. -/
def merge_output_filename (pName : String) (testNames : List String) :
    String :=
  pName ++ " - " ++ String.intercalate " + " testNames ++ ".pdf"

/-- The content page range of one document inside
`merge_patient_reports`'s group loop: skip an empty document; start after
the first page when `remove_first_page` and the document has more than one
page; end before the last (T&C) page, except that when that would leave
nothing (`end_idx <= start_idx`) the end index falls back to
`total_pages`. -/
def contentRange (removeFirstPage : Bool) (totalPages : Nat) : List Nat :=
  if totalPages = 0 then []
  else
    let startIdx := if removeFirstPage && decide (1 < totalPages) then 1 else 0
    let endIdx := totalPages - 1
    if totalPages ≤ startIdx then []
    else
      let endIdx := if endIdx ≤ startIdx then totalPages else endIdx
      List.range' startIdx (endIdx - startIdx)

/-- The references `(document, page index)` pushed to the writer by the
group loop of `merge_patient_reports`, document `d` being the loop
offset of the first document in the remaining list. -/
def contentRefsFrom (removeFirstPage : Bool) (d : Nat) :
    List Nat → List (Nat × Nat)
  | [] => []
  | n :: rest =>
      (contentRange removeFirstPage n).map (fun i => (d, i)) ++
        contentRefsFrom removeFirstPage (d + 1) rest

/-- The T&C page reference saved by `merge_patient_reports`: the last page
of the last document of the group, provided that document has more than
one page. -/
def tcRefOf (counts : List Nat) : Option (Nat × Nat) :=
  match counts.getLast? with
  | none => none
  | some n => if 1 < n then some (counts.length - 1, n - 1) else none

/-- `merge_patient_reports` (`rebrand_folder_app.py` lines 233–349),
page-structure part, for one patient group whose documents have
`counts` pages each.  One cover page at most; each document contributes
its `contentRange`; the saved T&C reference is appended once at the end.
`page.merge_page(header_overlay)` mutates the page object in place and
`writer.write` runs after the whole loop, so each emitted page shows the
final state of its object: it carries the overlay exactly when its
reference occurs among the content references. -/
def merge_patient_reports (counts : List Nat) (headerStyle : HeaderStyle)
    (addCover : Bool) (removeFirstPage : Bool) (coverOk creationOk : Bool) :
    List OutPage :=
  let overlay := headerOverlayPresent headerStyle creationOk
  let refs := contentRefsFrom removeFirstPage 0 counts
  let writerRefs := refs ++
    (match tcRefOf counts with | none => [] | some r => [r])
  let coverPart : List OutPage :=
    if addCover && coverOk then [.cover] else []
  coverPart ++ writerRefs.map
    (fun p => .src p.1 p.2 (overlay && decide (p ∈ refs)))

/-- A run of `apply_branding_to_pdf` including its failure path
(`rebrand_folder_app.py` lines 149–201): the whole body is one `try`,
and on any internal exception (`internalError`) the `except` branch only
logs and returns `False` — nothing is written to the output path and
there is no copy fallback in this function.  `none` models "no output
file written at the output path". -/
def apply_branding_to_pdf_run (totalPages : Nat) (headerStyle : HeaderStyle)
    (addCover removeFirstPage coverOk creationOk internalError : Bool) :
    Option (List OutPage) :=
  if internalError then none
  else apply_branding_to_pdf totalPages headerStyle addCover removeFirstPage
    coverOk creationOk

end Rebrand

namespace Worker

open Rebrand

/-- `final_fname` in `process_job` (`worker.py` line 301):
`f"{safe_p}_{safe_t}.pdf"`. -/
def final_fname (safeP safeT : String) : String :=
  safeP ++ "_" ++ safeT ++ ".pdf"

/-- The document written by the worker's `apply_branding` on its success
path: cover page (when `create_cover_page` succeeded), then pages
`1 .. n-1` of the source with the header overlay merged onto each except
the last (`for i in range(1, len(reader.pages))`, overlay applied when
`i < len(reader.pages) - 1` and the overlay exists). -/
def brandedDoc (n : Nat) (coverOk headerOk : Bool) : List OutPage :=
  (if coverOk then [OutPage.cover] else []) ++
    (List.range' 1 (n - 1)).map
      (fun i => .src 0 i (decide (i < n - 1) && headerOk))

/-- `apply_branding` (`worker.py` lines 196–222) for an `n`-page source:
if the cover image file is missing, copy the source to the output path;
otherwise brand it, and on any internal exception (`internalError`) fall
back to copying the unmodified source to the output path.  The function
always writes a document at the output path. -/
def apply_branding (n : Nat)
    (coverImageExists coverOk headerOk internalError : Bool) :
    List OutPage :=
  if coverImageExists = false then mkSrcDoc 0 n
  else if internalError then mkSrcDoc 0 n
  else brandedDoc n coverOk headerOk

/-- The call `process_job` makes on the queue after the two sink uploads. -/
inductive FinalizeAction where
  | completeJob (jobId : Nat)
  | failJob (jobId : Nat) (msg : String)
deriving DecidableEq, Repr

/-- The finalization of `process_job` (`worker.py` lines 307–332): when
`drive_ok or api_ok`, call `queue_db.complete_job`; otherwise the raised
"Both Drive and API uploads failed" is caught and passed to
`queue_db.fail_job`. -/
def finalize_job (jobId : Nat) (driveOk apiOk : Bool) : FinalizeAction :=
  if driveOk || apiOk then .completeJob jobId
  else .failJob jobId "Both Drive and API uploads failed"

end Worker

/-! ## Theorems -/

namespace QueueDB

theorem pickOldest_eq_none_iff (l : List JobRow) :
    pickOldest l = none ↔ l = [] := by
  cases l with
  | nil => simp [pickOldest]
  | cons r rs =>
      constructor
      · intro h
        exfalso
        simp only [pickOldest] at h
        cases hp : pickOldest rs with
        | none => rw [hp] at h; exact Option.noConfusion h
        | some m =>
            rw [hp] at h
            by_cases hc : r.createdAt ≤ m.createdAt <;> simp [hc] at h
      · intro h; exact absurd h (List.cons_ne_nil r rs)

theorem pickOldest_mem (l : List JobRow) :
    ∀ m, pickOldest l = some m → m ∈ l := by
  induction l with
  | nil => intro m h; simp [pickOldest] at h
  | cons r rs ih =>
      intro m h
      simp only [pickOldest] at h
      cases hp : pickOldest rs with
      | none =>
          rw [hp] at h
          simp only [Option.some.injEq] at h
          subst h
          exact List.mem_cons_self _ _
      | some m' =>
          rw [hp] at h
          by_cases hc : r.createdAt ≤ m'.createdAt <;>
            simp only [hc, if_true, if_false, Option.some.injEq] at h <;>
            subst h
          · exact List.mem_cons_self _ _
          · exact List.mem_cons_of_mem _ (ih m' hp)


theorem pickOldest_min (l : List JobRow) :
    ∀ m, pickOldest l = some m → ∀ x ∈ l, m.createdAt ≤ x.createdAt := by
  induction l with
  | nil => intro m h; simp [pickOldest] at h
  | cons r rs ih =>
      intro m h x hx
      simp only [pickOldest] at h
      cases hp : pickOldest rs with
      | none =>
          rw [hp] at h
          injection h with h
          subst h
          have hrs : rs = [] := (pickOldest_eq_none_iff rs).mp hp
          subst hrs
          rcases List.mem_singleton.mp hx with rfl
          exact Nat.le_refl _
      | some m' =>
          simp only [hp] at h
          rcases List.mem_cons.mp hx with h1 | h1
          · subst h1
            by_cases hc : x.createdAt ≤ m'.createdAt
            · rw [if_pos hc] at h
              injection h with h
              subst h
              exact Nat.le_refl _
            · rw [if_neg hc] at h
              injection h with h
              subst h
              exact le_of_not_le hc
          · by_cases hc : r.createdAt ≤ m'.createdAt
            · rw [if_pos hc] at h
              injection h with h
              subst h
              exact le_trans hc (ih m' hp x h1)
            · rw [if_neg hc] at h
              injection h with h
              subst h
              exact ih m' hp x h1

/-- Claim C1: `get_next_job` selects the oldest-created eligible pending
job (eligible: `retry_count = 0` or `updated_at` older than the 2-minute
re-claim delay); on selection the row's status becomes `processing` with a
refreshed `updated_at` (its `retry_count` and `created_at` kept) in the
same atomic step as the read, every other row is untouched, and it
returns `none` (leaving the table unchanged) exactly when no eligible
pending row exists.  Minimality of the selected `created_at` among
eligible rows gives claims in creation order. -/
theorem claim_next_spec (db : List JobRow) (now : Nat) :
    ((get_next_job db now).1 = none ↔ ∀ r ∈ db, eligible now r = false) ∧
    ((get_next_job db now).1 = none → (get_next_job db now).2 = db) ∧
    (∀ j, (get_next_job db now).1 = some j →
      j ∈ db ∧ eligible now j = true ∧
      (∀ r ∈ db, eligible now r = true → j.createdAt ≤ r.createdAt) ∧
      (get_next_job db now).2 =
        db.map (fun x => if x.id = j.id then claimUpdate now x else x) ∧
      (∀ x : JobRow, (claimUpdate now x).status = .processing ∧
        (claimUpdate now x).updatedAt = now ∧
        (claimUpdate now x).retryCount = x.retryCount ∧
        (claimUpdate now x).createdAt = x.createdAt)) := by
  cases hp : pickOldest (db.filter (eligible now)) with
  | none =>
      have h1 : (get_next_job db now).1 = none := by
        simp only [get_next_job, hp]
      have h2 : (get_next_job db now).2 = db := by
        simp only [get_next_job, hp]
      have hnil := (pickOldest_eq_none_iff _).mp hp
      rw [List.filter_eq_nil_iff] at hnil
      refine ⟨⟨fun _ r hr => ?_, fun _ => h1⟩, fun _ => h2, fun j hj => ?_⟩
      · cases hbe : eligible now r with
        | false => rfl
        | true => exact absurd hbe (hnil r hr)
      · rw [h1] at hj
        exact absurd hj (by simp)
  | some r =>
      have h1 : (get_next_job db now).1 = some r := by
        simp only [get_next_job, hp]
      have h2 : (get_next_job db now).2 =
          db.map (fun x => if x.id = r.id then claimUpdate now x else x) := by
        simp only [get_next_job, hp]
      have hrmem := pickOldest_mem _ r hp
      rw [List.mem_filter] at hrmem
      refine ⟨⟨fun h => ?_, fun hall => ?_⟩, fun h => ?_, fun j hj => ?_⟩
      · rw [h1] at h
        exact absurd h (by simp)
      · have hfalse := hall r hrmem.1
        rw [hrmem.2] at hfalse
        exact absurd hfalse (by simp)
      · rw [h1] at h
        exact absurd h (by simp)
      · rw [h1] at hj
        injection hj with hj
        subst hj
        refine ⟨hrmem.1, hrmem.2, ?_, h2, fun x => ⟨rfl, rfl, rfl, rfl⟩⟩
        intro y hy hey
        exact pickOldest_min _ r hp y (List.mem_filter.mpr ⟨hy, hey⟩)


theorem failUpdate_iterate_retryCount (now : Nat) (msg : String)
    (r : JobRow) : ∀ k, ((failUpdate now msg)^[k] r).retryCount =
      r.retryCount + k := by
  intro k
  induction k with
  | zero => simp
  | succ k ih =>
      rw [Function.iterate_succ_apply']
      simp only [failUpdate]
      rw [ih]
      omega

theorem failUpdate_iterate_status (now : Nat) (msg : String) (r : JobRow)
    (k : Nat) : ((failUpdate now msg)^[k + 1] r).status =
      if MAX_RETRIES < r.retryCount + k + 1 then Status.failed
      else Status.pending := by
  rw [Function.iterate_succ_apply']
  simp only [failUpdate]
  rw [failUpdate_iterate_retryCount]

/-- Claim C2: `fail_job` increments the matched row's `retry_count` by
exactly one; the new status is `failed` exactly when the new count exceeds
`MAX_RETRIES = 3`, else `pending`, and the error message is recorded.
Consequently a job starting at `retry_count = 0` is `pending` after each
of its first 3 failures and `failed` on exactly its 4th. -/
theorem fail_job_spec (db : List JobRow) (jobId : Nat) (msg : String)
    (now : Nat) :
    (fail_job db jobId msg now =
      db.map (fun r => if r.id = jobId then failUpdate now msg r else r)) ∧
    (∀ r : JobRow,
      (failUpdate now msg r).retryCount = r.retryCount + 1 ∧
      ((failUpdate now msg r).status = .failed ↔
        MAX_RETRIES < r.retryCount + 1) ∧
      (r.retryCount + 1 ≤ MAX_RETRIES →
        (failUpdate now msg r).status = .pending) ∧
      (failUpdate now msg r).error = some msg) ∧
    (∀ r : JobRow, r.retryCount = 0 →
      (∀ k, 1 ≤ k → k ≤ MAX_RETRIES →
        ((failUpdate now msg)^[k] r).status = .pending) ∧
      ((failUpdate now msg)^[4] r).status = .failed) := by
  refine ⟨rfl, fun r => ⟨rfl, ?_, ?_, rfl⟩, fun r h0 => ⟨?_, ?_⟩⟩
  · by_cases hc : MAX_RETRIES < r.retryCount + 1 <;> simp [failUpdate, hc]
  · intro h
    simp [failUpdate, Nat.not_lt.mpr h]
  · intro k hk1 hk3
    cases k with
    | zero => exact absurd hk1 (by decide)
    | succ k =>
        rw [failUpdate_iterate_status now msg r k, h0]
        have hlt : ¬ MAX_RETRIES < 0 + k + 1 := by
          simp only [MAX_RETRIES] at hk3 ⊢
          omega
        rw [if_neg hlt]
  · rw [show (4 : Nat) = 3 + 1 from rfl,
      failUpdate_iterate_status now msg r 3, h0]
    decide

/-- Claim C7: `reset_stuck_jobs` (default timeout 10 minutes) moves to
`pending` exactly the rows that are `processing` with `updated_at` older
than the timeout; a swept row keeps its `retry_count` and `created_at`,
and every non-stuck row is left completely unchanged. -/
theorem reset_stuck_spec (db : List JobRow) (now t : Nat) :
    (reset_stuck_jobs db now = reset_stuck_jobs db now 10) ∧
    (reset_stuck_jobs db now t =
      db.map (fun r => if stuck now t r then resetUpdate now r else r)) ∧
    (∀ r : JobRow, stuck now t r = true ↔
      (r.status = .processing ∧ r.updatedAt + t * 60 < now)) ∧
    (∀ r : JobRow, stuck now t r = true →
      (resetUpdate now r).status = .pending ∧
      (resetUpdate now r).retryCount = r.retryCount ∧
      (resetUpdate now r).createdAt = r.createdAt ∧
      (resetUpdate now r).updatedAt = now) ∧
    (∀ r : JobRow, stuck now t r = false →
      (if stuck now t r then resetUpdate now r else r) = r) := by
  refine ⟨rfl, rfl, fun r => ?_, fun r _ => ⟨rfl, rfl, rfl, rfl⟩,
    fun r h => ?_⟩
  · simp [stuck]
  · simp [h]

end QueueDB

namespace Worker

/-- Claim C5: after processing, `process_job` completes the job when at
least one of the two sinks (Drive upload, API upload) succeeded; only when
both failed does it fail the job, with the combined error message, so one
sink's failure never masks the other's success. -/
theorem finalize_spec (jobId : Nat) (driveOk apiOk : Bool) :
    (finalize_job jobId driveOk apiOk = .completeJob jobId ↔
      (driveOk = true ∨ apiOk = true)) ∧
    (driveOk = false → apiOk = false →
      finalize_job jobId driveOk apiOk =
        .failJob jobId "Both Drive and API uploads failed") ∧
    (finalize_job jobId true false = .completeJob jobId) ∧
    (finalize_job jobId false true = .completeJob jobId) := by
  cases driveOk <;> cases apiOk <;> simp [finalize_job]

/-- Claim C6, counterexample: the folder app's `apply_branding_to_pdf`
has no copy fallback — on an internal failure for a 3-page source it
returns `False` and writes nothing to the output path, so an output file
does not always exist at the output path on internal failure. -/
theorem no_output_on_internal_failure_counterexample :
    Rebrand.apply_branding_to_pdf_run 3 .branded true true true true true =
      none ∧
    Worker.apply_branding 3 true true true true = Rebrand.mkSrcDoc 0 3 := by
  exact ⟨rfl, by decide⟩

/-- Claim C6 (amended): when the branding transform fails internally, the
worker's `apply_branding` copies the original unmodified source to the
output path, so on the worker's path a document — source copy or branded
output — is written on every run; the folder app's
`apply_branding_to_pdf`, by contrast, has no copy fallback: on internal
failure it returns `False` and writes no output file, and only its
non-failing runs write the branded document. -/
theorem branding_degraded_spec (n : Nat)
    (coverImageExists coverOk headerOk creationOk : Bool)
    (hs : Rebrand.HeaderStyle) (addCover removeFirstPage : Bool) :
    (Worker.apply_branding n coverImageExists coverOk headerOk true =
      Rebrand.mkSrcDoc 0 n) ∧
    (Worker.apply_branding n false coverOk headerOk false =
      Rebrand.mkSrcDoc 0 n) ∧
    (∀ internalError,
      Worker.apply_branding n coverImageExists coverOk headerOk
          internalError = Rebrand.mkSrcDoc 0 n ∨
      Worker.apply_branding n coverImageExists coverOk headerOk
          internalError = brandedDoc n coverOk headerOk) ∧
    (Rebrand.apply_branding_to_pdf_run n hs addCover removeFirstPage
        coverOk creationOk true = none) ∧
    (Rebrand.apply_branding_to_pdf_run n hs addCover removeFirstPage
        coverOk creationOk false =
      Rebrand.apply_branding_to_pdf n hs addCover removeFirstPage
        coverOk creationOk) := by
  refine ⟨?_, rfl, ?_, rfl, rfl⟩
  · cases coverImageExists <;> simp [Worker.apply_branding]
  · intro err
    cases coverImageExists <;> cases err <;>
      simp [Worker.apply_branding]

end Worker

namespace Rebrand

theorem startPageIndex_le (rf : Bool) (n : Nat) :
    startPageIndex rf n ≤ n - 1 := by
  by_cases h : (rf && decide (1 < n)) = true
  · rw [startPageIndex, if_pos h]
    simp only [Bool.and_eq_true, decide_eq_true_eq] at h
    omega
  · rw [startPageIndex, if_neg h]
    omega

theorem pageWindow_concat (rf : Bool) (n : Nat) (hn : 1 ≤ n) :
    pageWindow rf n =
      List.range' (startPageIndex rf n) (n - 1 - startPageIndex rf n) ++
        [n - 1] := by
  have hs := startPageIndex_le rf n
  rw [pageWindow]
  have h1 : n - startPageIndex rf n = (n - 1 - startPageIndex rf n) + 1 := by
    omega
  rw [h1, List.range'_concat]
  have h2 : startPageIndex rf n + 1 * (n - 1 - startPageIndex rf n) =
      n - 1 := by
    omega
  rw [h2]

/-- Claim C4: a 3-page source with `remove_first_page`, `add_cover` and
`header_style = branded` yields cover + page 1 (header merged) + page 2
(no header), 3 pages in total; in general, for every non-empty source the
written document ends with the source's last page passed through without
the header overlay, while every other window page is emitted with the
header overlay composited onto it (the page keeps its identity, the
overlay flag is merely set). -/
theorem apply_branding_single_spec (n : Nat) (hs : HeaderStyle)
    (addCover removeFirstPage coverOk creationOk : Bool) :
    (apply_branding_to_pdf 3 .branded true true true true =
      some [OutPage.cover, .src 0 1 true, .src 0 2 false]) ∧
    ((apply_branding_to_pdf 3 .branded true true true true).map
        List.length = some 3) ∧
    (1 ≤ n → ∃ pre,
      apply_branding_to_pdf n hs addCover removeFirstPage coverOk
          creationOk = some (pre ++ [OutPage.src 0 (n - 1) false]) ∧
      ∀ i ∈ pageWindow removeFirstPage n, i < n - 1 →
        OutPage.src 0 i (headerOverlayPresent hs creationOk) ∈ pre) := by
  refine ⟨by decide, by decide, ?_⟩
  intro hn
  rw [apply_branding_to_pdf, if_neg (by omega)]
  refine ⟨(if addCover && coverOk then [OutPage.cover] else []) ++
    (List.range' (startPageIndex removeFirstPage n)
        (n - 1 - startPageIndex removeFirstPage n)).map
      (fun i => OutPage.src 0 i (decide (i < n - 1) &&
        headerOverlayPresent hs creationOk)), ?_, ?_⟩
  · simp only [pageWindow_concat removeFirstPage n hn, List.map_append,
      List.map_cons, List.map_nil, List.append_assoc]
    simp
  · intro i hi hilt
    apply List.mem_append_right
    rw [List.mem_map]
    refine ⟨i, ?_, ?_⟩
    · have hs1 := startPageIndex_le removeFirstPage n
      rw [pageWindow, List.mem_range'_1] at hi
      rw [List.mem_range'_1]
      omega
    · rw [decide_eq_true hilt, Bool.true_and]

/-- Claim C8: a 1-page source with `remove_first_page = true` keeps its
only page: the start index is 1 exactly when `remove_first_page` is set
and the source has more than one page, else 0, so the window falls back to
`[0, 1)` and the written output contains the page. -/
theorem degenerate_window_spec (rf : Bool) (n : Nat) (hs : HeaderStyle)
    (addCover coverOk creationOk : Bool) :
    (startPageIndex rf n = 1 ↔ (rf = true ∧ 1 < n)) ∧
    (¬(rf = true ∧ 1 < n) → startPageIndex rf n = 0) ∧
    (pageWindow true 1 = [0]) ∧
    (∃ pre, apply_branding_to_pdf 1 hs addCover true coverOk creationOk =
      some (pre ++ [OutPage.src 0 0 false])) := by
  refine ⟨?_, ?_, by decide, ?_⟩
  · by_cases h : (rf && decide (1 < n)) = true
    · rw [startPageIndex, if_pos h]
      simp only [Bool.and_eq_true, decide_eq_true_eq] at h
      simp [h]
    · rw [startPageIndex, if_neg h]
      simp only [Bool.and_eq_true, decide_eq_true_eq] at h
      constructor
      · intro h0; exact absurd h0 (by decide)
      · intro hc; exact absurd hc h
  · intro h
    have hb : ¬ (rf && decide (1 < n)) = true := by
      simp only [Bool.and_eq_true, decide_eq_true_eq]
      exact h
    rw [startPageIndex, if_neg hb]
  · refine ⟨if addCover && coverOk then [OutPage.cover] else [], ?_⟩
    rw [apply_branding_to_pdf, if_neg (by omega)]
    rw [show pageWindow true 1 = [0] from rfl]
    simp

end Rebrand

namespace Rebrand

/-- Claim C3, counterexample: two 3-page documents of one patient group,
each with `remove_first_page = true` and a cover, merge into 4 output
pages, not the 6 the claim states: each document contributes only its
middle page, because the group loop excludes the last page of every
document (`end_idx = total_pages - 1`), not just the last document's. -/
theorem merge_two_3page_counterexample :
    (merge_patient_reports [3, 3] .branded true true true true).length = 4 ∧
    ¬ (merge_patient_reports [3, 3] .branded true true true
        true).length = 6 := by
  decide

/-- Claim C3 (amended): two 3-page documents of one patient group, each
with `remove_first_page = true` and a cover, merge into exactly 4 pages:
one cover, one content page from each document (page 1, the middle page,
with the header overlay), and exactly one trailing terminal page — the
last page of the last document — appended once, unbranded. -/
theorem merge_two_3page_spec :
    merge_patient_reports [3, 3] .branded true true true true =
      [OutPage.cover, .src 0 1 true, .src 1 1 true, .src 1 2 false] ∧
    (merge_patient_reports [3, 3] .branded true true true true).length = 4 ∧
    tcRefOf [3, 3] = some (1, 2) := by
  decide

/-- Claim C9, counterexample: the worker's `process_job` builds its output
filename with an underscore, `f"{safe_p}_{safe_t}.pdf"`, not with the
" - " separator the claim states for every renamed document. -/
theorem worker_filename_counterexample :
    Worker.final_fname "Alice" "CBC" = "Alice_CBC.pdf" ∧
    output_filename true "Alice" "CBC" "scan.pdf" = "Alice - CBC.pdf" ∧
    Worker.final_fname "Alice" "CBC" ≠
      output_filename true "Alice" "CBC" "scan.pdf" := by
  refine ⟨rfl, rfl, ?_⟩
  decide

/-- Claim C9 (amended): in the folder app, single-document mode names the
output `"{patient} - {test}.pdf"` and merge mode names it
`"{patient} - {test1} + {test2} + ...pdf"` with the constituent test
names joined by " + "; the worker's `process_job`, however, names its
output `"{patient}_{test}.pdf"` with an underscore separator. -/
theorem output_naming_spec (p t t1 b : String) :
    output_filename true p t b = p ++ " - " ++ t ++ ".pdf" ∧
    output_filename false p t b = b ∧
    merge_output_filename p [t1] = p ++ " - " ++ t1 ++ ".pdf" ∧
    merge_output_filename "Ann" ["X", "Y"] = "Ann - X + Y.pdf" ∧
    merge_output_filename "Ann" ["X", "Y", "Z"] = "Ann - X + Y + Z.pdf" ∧
    Worker.final_fname p t = p ++ "_" ++ t ++ ".pdf" := by
  exact ⟨rfl, rfl, rfl, by decide, by decide, rfl⟩

theorem contentRefsFrom_append_single (cs : List Nat) : ∀ d : Nat,
    contentRefsFrom true d (cs ++ [2]) =
      contentRefsFrom true d cs ++ [(d + cs.length, 1)] := by
  induction cs with
  | nil =>
      intro d
      simp [contentRefsFrom, contentRange]
  | cons c cs ih =>
      intro d
      simp only [List.cons_append, contentRefsFrom, List.append_eq,
        ih (d + 1), List.append_assoc, List.length_cons]
      have hd : d + 1 + cs.length = d + (cs.length + 1) := by omega
      rw [hd]

theorem tcRefOf_append_two (cs : List Nat) :
    tcRefOf (cs ++ [2]) = some (cs.length, 1) := by
  simp [tcRefOf, List.getLast?_concat]

/-- Claim C10: in merge mode, when a multi-document group's last document
has exactly 2 pages and `remove_first_page = true`, the end-index fallback
makes that document's terminal page a content page (`contentRange` is
`[1]`) while it is also saved as the T&C page, so it is emitted twice:
once as a content page merged with the header overlay and once as the
appended trailing terminal page — which, `merge_page` having mutated the
page object in place, also carries the overlay. -/
theorem merge_duplicate_terminal_spec (c : Nat) (cs : List Nat) :
    contentRange true 2 = [1] ∧
    tcRefOf ((c :: cs) ++ [2]) = some (cs.length + 1, 1) ∧
    (∃ pre, merge_patient_reports ((c :: cs) ++ [2]) .branded true true
        true true =
      pre ++ [OutPage.src (cs.length + 1) 1 true,
              OutPage.src (cs.length + 1) 1 true]) := by
  have hlen : (c :: cs).length = cs.length + 1 := by
    simp
  have htc : tcRefOf ((c :: cs) ++ [2]) = some (cs.length + 1, 1) := by
    rw [tcRefOf_append_two, hlen]
  refine ⟨by decide, htc, ?_⟩
  have hrefs : contentRefsFrom true 0 ((c :: cs) ++ [2]) =
      contentRefsFrom true 0 (c :: cs) ++ [(cs.length + 1, 1)] := by
    rw [contentRefsFrom_append_single, hlen]
    simp
  have hmem : ((cs.length + 1, 1) : Nat × Nat) ∈
      contentRefsFrom true 0 (c :: cs) ++ [(cs.length + 1, 1)] :=
    List.mem_append_right _ (List.mem_singleton.mpr rfl)
  have hdec : decide (((cs.length + 1, 1) : Nat × Nat) ∈
      contentRefsFrom true 0 (c :: cs) ++ [(cs.length + 1, 1)]) = true :=
    decide_eq_true hmem
  simp only [merge_patient_reports, hrefs, htc, List.append_assoc,
    List.map_append, List.map_cons, List.map_nil, List.singleton_append,
    hdec, headerOverlayPresent, Bool.true_and]
  rw [← List.append_assoc]
  exact ⟨_, rfl⟩

end Rebrand
